import Mathlib

/-!
Shallow embedding of the polybft state-sync commitment engine
(`stateSyncManager` and the quorum helpers of `consensusRuntime`) and
proofs of the specified properties.

Addresses, signatures and BLS public keys are modelled as natural
numbers; byte-string digests are modelled by the canonical triple they
encode.  Stateful Go methods become pure functions that thread an
explicit manager state and report an optional error alongside the new
state (mutations that Go performs before an error is returned are kept,
matching the in-place semantics of the source).
-/

namespace PolybftStateSync

/-- A state sync event `(id, sender, receiver, data)` as emitted by the
anchoring contract (`types.StateSyncEvent`). -/
structure StateSyncEvent where
  id : Nat
  sender : Nat
  receiver : Nat
  data : List Nat
deriving DecidableEq, Repr

/-- `minCommitmentSize` from the source: minimum number of state sync
events a commitment can have (the Merkle verifier needs two leaves). -/
def minCommitmentSize : Nat := 2

/-- Modelled from the spec: the Merkle Builder is a pure function from
an ordered event list to a 32-byte root (`createMerkleTree` and
`MerkleTree.Hash` are not under `src/`).  The root is modelled as a
deterministic pairing-fold of the encoded events. -/
def pairNat (a b : Nat) : Nat := (a + b) * (a + b + 1) / 2 + b

/-- Modelled from the spec: canonical encoding of one event's fields. -/
def encodeEvent (e : StateSyncEvent) : Nat :=
  pairNat e.id (pairNat e.sender (pairNat e.receiver (e.data.foldl pairNat 0)))

/-- Modelled from the spec: Merkle root of an ordered event list. -/
def merkleRoot (evs : List StateSyncEvent) : Nat :=
  evs.foldl (fun a e => pairNat a (encodeEvent e)) 1

/-- Modelled from the spec: the sibling-path proof for leaf `i` of the
tree over `evs`; only its determinism matters to the claims. -/
def generateProof (evs : List StateSyncEvent) (i : Nat) : Nat :=
  pairNat (merkleRoot evs) i

/-- The digest a commitment is signed under: the hash of the triple
`(merkleRoot, fromId, toId)`, modelled injectively by the triple. -/
structure Digest where
  root : Nat
  fromIndex : Nat
  toIndex : Nat
deriving DecidableEq, Repr

/-- A pending commitment (`Commitment` in the source, whose definition
is not under `src/`).  Modelled from the spec: `epoch`, `fromId`,
`toId` and the ordered event list the Merkle tree is built from. -/
structure Commitment where
  epoch : Nat
  fromIndex : Nat
  toIndex : Nat
  events : List StateSyncEvent
deriving DecidableEq, Repr

/-- `Commitment.Hash`: digest of `(merkleRoot, fromIndex, toIndex)`. -/
def Commitment.hash (c : Commitment) : Digest :=
  ⟨merkleRoot c.events, c.fromIndex, c.toIndex⟩

/-- The payload of a commitment-submission transaction
(`CommitmentMessage`): Merkle root plus the covered id range. -/
structure CommitmentMessage where
  merkleRoot : Nat
  fromIndex : Nat
  toIndex : Nat
deriving DecidableEq, Repr

/-- An aggregated signature plus the signer bitmap (`Signature`). -/
structure AggSig where
  aggregatedSignature : Nat
  bitmap : Nat
deriving DecidableEq, Repr

/-- A quorum-signed commitment message (`CommitmentMessageSigned`). -/
structure CommitmentMessageSigned where
  message : CommitmentMessage
  aggSignature : AggSig
  publicKeys : List Nat
deriving DecidableEq, Repr

/-- A single vote: sender address and its signature
(`MessageSignature`). -/
structure MessageSignature where
  From : Nat
  signature : Nat
deriving DecidableEq, Repr

/-- A vote as persisted in the store, keyed by `(epoch, digest, From)`. -/
structure VoteEntry where
  epoch : Nat
  digest : Digest
  From : Nat
  signature : Nat
deriving DecidableEq, Repr

/-- A per-event inclusion proof (`types.StateSyncProof`). -/
structure StateSyncProof where
  proof : Nat
  stateSync : StateSyncEvent
deriving DecidableEq, Repr

/-- A gossiped vote (`TransportMessage`). -/
structure TransportMessage where
  hash : Digest
  signature : Nat
  nodeID : Nat
  epochNumber : Nat
deriving DecidableEq, Repr

/-- A validator account: address and BLS public key. -/
structure Account where
  address : Nat
  blsKey : Nat
deriving DecidableEq, Repr

/-- Modelled from the spec: the `ValidatorSet` collaborator (its
implementation is not under `src/`).  It exposes the ordered account
list and an abstract `hasQuorum` predicate over signer-address sets. -/
structure ValidatorSet where
  accounts : List Account
  hasQuorumF : List Nat → Bool

/-- `ValidatorSet.Includes`: membership of an address. -/
def ValidatorSet.includes (vs : ValidatorSet) (a : Nat) : Bool :=
  vs.accounts.any (fun acc => acc.address = a)

/-- Errors surfaced by the engine. -/
inductive SMError where
  | notEnoughStateSyncs
  | quorumNotReached
  | notAValidator
  | notFound
  | systemState
deriving DecidableEq, Repr

/-! ## The Store (ST)

Modelled from the spec §4.4: the `State` type backing the manager is
not under `src/`; its four logical maps and atomic operations are
modelled from the spec's words. -/

/-- Modelled from the spec: the durable store with its four logical
collections. -/
structure Store where
  events : List StateSyncEvent
  votes : List VoteEntry
  commitments : List CommitmentMessageSigned
  proofs : List StateSyncProof
deriving DecidableEq, Repr

/-- Modelled from the spec: `insertStateSyncEvent(ev)`, idempotent on
`ev.id`. -/
def insertStateSyncEvent (st : Store) (ev : StateSyncEvent) : Store :=
  if st.events.any (fun e => e.id = ev.id) then st
  else { st with events := st.events ++ [ev] }

/-- The events of the store with ids in `[a, b]`, in id order. -/
def eventsInRange (st : Store) (a b : Nat) : List StateSyncEvent :=
  (List.range' a (b + 1 - a)).filterMap
    (fun i => st.events.find? (fun e => e.id = i))

/-- Modelled from the spec: `getStateSyncEventsForCommitment(fromId,
toId)` returns the events with ids in the range and fails with
`NotEnoughStateSyncs` when the scan yields fewer than
`minCommitmentSize` events. -/
def getStateSyncEventsForCommitment (st : Store) (a b : Nat) :
    Except SMError (List StateSyncEvent) :=
  let evs := eventsInRange st a b
  if evs.length < minCommitmentSize then .error .notEnoughStateSyncs
  else .ok evs

/-- Whether a stored vote matches the upsert key `(epoch, digest, From)`. -/
def voteKeyMatch (ep : Nat) (d : Digest) (fr : Nat) (w : VoteEntry) : Bool :=
  w.epoch = ep ∧ w.digest = d ∧ w.From = fr

/-- Whether a stored vote belongs to the collection `(epoch, digest)`. -/
def voteAt (ep : Nat) (d : Digest) (w : VoteEntry) : Bool :=
  w.epoch = ep ∧ w.digest = d

/-- The upsert on the vote collection: replace the signature when the
key `(epoch, digest, From)` is present, append otherwise. -/
def upsertVotes (votes : List VoteEntry) (ep : Nat) (d : Digest)
    (v : MessageSignature) : List VoteEntry :=
  if votes.any (voteKeyMatch ep d v.From) then
    votes.map (fun w =>
      if voteKeyMatch ep d v.From w then { w with signature := v.signature } else w)
  else votes ++ [⟨ep, d, v.From, v.signature⟩]

/-- Modelled from the spec: `insertMessageVote(epoch, digest, vote)`
upserts by `(epoch, digest, vote.From)` and returns the number of
distinct votes now recorded at `(epoch, digest)`. -/
def insertMessageVote (st : Store) (epoch : Nat) (digest : Digest)
    (v : MessageSignature) : Store × Nat :=
  let votes' := upsertVotes st.votes epoch digest v
  ({ st with votes := votes' }, (votes'.filter (voteAt epoch digest)).length)

/-- Modelled from the spec: `getMessageVotes(epoch, digest)`. -/
def getMessageVotes (st : Store) (epoch : Nat) (digest : Digest) :
    List MessageSignature :=
  (st.votes.filter (voteAt epoch digest)).map (fun w => ⟨w.From, w.signature⟩)

/-- Modelled from the spec: `insertCommitmentMessage(signed)`. -/
def insertCommitmentMessage (st : Store) (cm : CommitmentMessageSigned) : Store :=
  { st with commitments := st.commitments ++ [cm] }

/-- Modelled from the spec: `getCommitmentForStateSync(id)` locates an
accepted commitment whose range covers `id`. -/
def getCommitmentForStateSync (st : Store) (ssid : Nat) :
    Option CommitmentMessageSigned :=
  st.commitments.find?
    (fun cm => cm.message.fromIndex ≤ ssid ∧ ssid ≤ cm.message.toIndex)

/-- Modelled from the spec: `getStateSyncProof(id)` store read. -/
def storeGetStateSyncProof (st : Store) (ssid : Nat) : Option StateSyncProof :=
  st.proofs.find? (fun p => p.stateSync.id = ssid)

/-- Modelled from the spec: `insertStateSyncProofs([]proof)` batch
upsert keyed by the event id. -/
def insertStateSyncProofs (st : Store) (ps : List StateSyncProof) : Store :=
  { st with
    proofs :=
      st.proofs.filter
        (fun q => ¬ ps.any (fun p => p.stateSync.id = q.stateSync.id)) ++ ps }

/-! ## The manager state and its operations -/

/-- The manager configuration (`stateSyncConfig`): commitment window
cap plus the local key (its address and signing function). -/
structure SSConfig where
  maxCommitmentSize : Nat
  keyAddr : Nat
  keySign : Digest → Nat

/-- The `stateSyncManager` state: the store, the per-epoch fields, and
an outbox recording the gossiped transport messages (`multicast`). -/
structure MgrState where
  state : Store
  config : SSConfig
  pendingCommitments : List Commitment
  validatorSet : Option ValidatorSet
  epoch : Nat
  nextCommittedIndex : Nat
  outbox : List TransportMessage

/-- `validatorAddrToIndex` lookup of the source's aggregation loops. -/
def findValidatorIndex (accounts : List Account) (addr : Nat) : Option Nat :=
  accounts.findIdx? (fun acc => acc.address = addr)

/-- Accumulator of the vote-collection loop: bitmap, signature list,
public-key list and the distinct signer set. -/
structure VoteCollect where
  bitmap : Nat
  signatures : List Nat
  publicKeys : List Nat
  signers : List Nat
deriving DecidableEq, Repr

/-- One iteration of the source's vote loop: skip votes whose sender is
not a validator, otherwise set the bitmap bit and record signature,
public key and signer. -/
def collectStep (accounts : List Account) (acc : VoteCollect)
    (v : MessageSignature) : VoteCollect :=
  match findValidatorIndex accounts v.From with
  | none => acc
  | some i =>
    { bitmap := acc.bitmap ||| 2 ^ i
      signatures := acc.signatures ++ [v.signature]
      publicKeys := acc.publicKeys ++ [((accounts.get? i).map Account.blsKey).getD 0]
      signers := if acc.signers.contains v.From then acc.signers
                 else acc.signers ++ [v.From] }

/-- The vote loop of `getAggSignatureForCommitmentMessage`. -/
def collectVotes (accounts : List Account) (votes : List MessageSignature) :
    VoteCollect :=
  votes.foldl (collectStep accounts) ⟨0, [], [], []⟩

/-- BLS aggregation, modelled as a deterministic fold of the collected
signatures (the BLS library is external to the repository). -/
def aggregateSignatures (sigs : List Nat) : Nat := sigs.foldl (· + ·) 0

/-- `stateSyncManager.getAggSignatureForCommitmentMessage`: read the
votes for the commitment's digest, collect those from validators, and
aggregate iff the validator set grants quorum to the signer set. -/
def getAggSignatureForCommitmentMessage (st : Store) (vs : ValidatorSet)
    (c : Commitment) : Except SMError (AggSig × List Nat) :=
  let votes := getMessageVotes st c.epoch c.hash
  let col := collectVotes vs.accounts votes
  if vs.hasQuorumF col.signers then
    .ok (⟨aggregateSignatures col.signatures, col.bitmap⟩, col.publicKeys)
  else .error .quorumNotReached

/-- The distinct validator signers recorded among the stored votes for
commitment `c`. -/
def signersFor (st : Store) (vs : ValidatorSet) (c : Commitment) : List Nat :=
  (collectVotes vs.accounts (getMessageVotes st c.epoch c.hash)).signers

/-- Whether the stored votes for `c` reach quorum. -/
def hasQuorumFor (st : Store) (vs : ValidatorSet) (c : Commitment) : Bool :=
  vs.hasQuorumF (signersFor st vs c)

/-- The `CommitmentMessageSigned` that `Commitment()` assembles from a
quorum-reaching pending commitment. -/
def mkSignedCommitment (st : Store) (vs : ValidatorSet) (c : Commitment) :
    CommitmentMessageSigned :=
  let col := collectVotes vs.accounts (getMessageVotes st c.epoch c.hash)
  ⟨⟨merkleRoot c.events, c.fromIndex, c.toIndex⟩,
   ⟨aggregateSignatures col.signatures, col.bitmap⟩, col.publicKeys⟩

/-- The descending loop of `Commitment()`: the argument list is the
pending list reversed (newest first); a quorum failure continues to the
next candidate, any other error aborts. -/
def commitmentLoop (st : Store) (vs : ValidatorSet) :
    List Commitment → Except SMError (Option CommitmentMessageSigned)
  | [] => .ok none
  | c :: rest =>
    match getAggSignatureForCommitmentMessage st vs c with
    | .error .quorumNotReached => commitmentLoop st vs rest
    | .error e => .error e
    | .ok (sig, pks) =>
      .ok (some ⟨⟨merkleRoot c.events, c.fromIndex, c.toIndex⟩, sig, pks⟩)

/-- The degenerate validator set standing in for Go's `nil` (reachable
only while the pending list is empty, where it is never consulted). -/
def emptyValidatorSet : ValidatorSet := ⟨[], fun _ => false⟩

/-- `stateSyncManager.Commitment()`. -/
def commitmentOp (s : MgrState) : Except SMError (Option CommitmentMessageSigned) :=
  commitmentLoop s.state (s.validatorSet.getD emptyValidatorSet)
    s.pendingCommitments.reverse

/-- Id of the first event of a scan (0 when empty). -/
def headId (evs : List StateSyncEvent) : Nat :=
  (evs.head?.map StateSyncEvent.id).getD 0

/-- Id of the last event of a scan (0 when empty). -/
def lastId (evs : List StateSyncEvent) : Nat :=
  (evs.getLast?.map StateSyncEvent.id).getD 0

/-- Modelled from the spec: `NewCommitment(epoch, events)` (not under
`src/`) packages the ordered events with the id range they span. -/
def NewCommitment (epoch : Nat) (evs : List StateSyncEvent) : Commitment :=
  ⟨epoch, headId evs, lastId evs, evs⟩

/-- The guard of `buildCommitment`: the newest pending commitment
already covers through the last event id of the scan. -/
def alreadyCovered (pending : List Commitment) (evs : List StateSyncEvent) : Bool :=
  match pending.getLast? with
  | none => false
  | some c => lastId evs ≤ c.toIndex

/-- The event window `buildCommitment` scans: ids from
`nextCommittedIndex` through `nextCommittedIndex + maxCommitmentSize - 1`. -/
def scanWindow (s : MgrState) : List StateSyncEvent :=
  eventsInRange s.state s.nextCommittedIndex
    (s.nextCommittedIndex + s.config.maxCommitmentSize - 1)

/-- The successful tail of `buildCommitment`: construct the commitment,
self-sign its digest, record the self-vote in the store, gossip the
transport message, and append to the pending list. -/
def buildApplied (s : MgrState) (evs : List StateSyncEvent) : MgrState :=
  let c := NewCommitment s.epoch evs
  let digest := c.hash
  let sig := s.config.keySign digest
  { s with
    state := (insertMessageVote s.state s.epoch digest
      ⟨s.config.keyAddr, sig⟩).1
    pendingCommitments := s.pendingCommitments ++ [c]
    outbox := s.outbox ++ [⟨digest, sig, s.config.keyAddr, s.epoch⟩] }

/-- `stateSyncManager.buildCommitment`: scan the window starting at
`nextCommittedIndex` (tolerating `NotEnoughStateSyncs`), no-op when
fewer than `minCommitmentSize` events or when the newest pending
commitment already covers the scan; otherwise build, self-sign, record
the self-vote, gossip, and append to the pending list. -/
def buildCommitment (s : MgrState) : MgrState × Option SMError :=
  match getStateSyncEventsForCommitment s.state s.nextCommittedIndex
      (s.nextCommittedIndex + s.config.maxCommitmentSize - 1) with
  | .error .notEnoughStateSyncs => (s, none)
  | .error e => (s, some e)
  | .ok evs =>
    if evs.length < minCommitmentSize then (s, none)
    else if alreadyCovered s.pendingCommitments evs then (s, none)
    else (buildApplied s evs, none)

/-- A rootchain log delivered by the event tracker. -/
inductive EventLog where
  | stateSync (id sender receiver : Nat) (data : List Nat)
  | other (n : Nat)
deriving DecidableEq, Repr

/-- `stateTransferEventABI.Match`. -/
def matchStateTransferABI : EventLog → Bool
  | .stateSync _ _ _ _ => true
  | .other _ => false

/-- `decodeStateSyncEvent`. -/
def decodeStateSyncEventLog : EventLog → Option StateSyncEvent
  | .stateSync i sd r d => some ⟨i, sd, r, d⟩
  | .other _ => none

/-- `stateSyncManager.AddLog`: insert a matching decoded event, then
attempt a commitment build (build errors are logged and swallowed, but
the build's state changes persist, as in the source). -/
def addLog (s : MgrState) (log : EventLog) : MgrState :=
  if matchStateTransferABI log then
    match decodeStateSyncEventLog log with
    | none => s
    | some ev =>
      let s1 := { s with state := insertStateSyncEvent s.state ev }
      (buildCommitment s1).1
  else s

/-- `stateSyncManager.saveVote`: drop silently when epoch metadata is
missing or the vote's epoch is older than the current one; fail without
writing when the sender is not a validator; otherwise insert the vote
keyed by the message's own epoch. -/
def saveVote (s : MgrState) (msg : TransportMessage) : MgrState × Option SMError :=
  match s.validatorSet with
  | none => (s, none)
  | some vs =>
    if msg.epochNumber < s.epoch then (s, none)
    else if ¬ vs.includes msg.nodeID then (s, some .notAValidator)
    else
      ({ s with
          state := (insertMessageVote s.state msg.epochNumber msg.hash
            ⟨msg.nodeID, msg.signature⟩).1 }, none)

/-- A `PostEpoch` request: new epoch id, new validator set, and the
result of the system-state `GetNextCommittedIndex` read (modelled from
the spec: `SystemStateView` is an external collaborator). -/
structure PostEpochRequest where
  newEpochID : Nat
  validatorSet : ValidatorSet
  systemStateNextCommittedIndex : Except SMError Nat

/-- `stateSyncManager.PostEpoch`: discard pending commitments, install
the new epoch metadata, read the next committed index (an error here is
returned with the resets already applied, as in the source), then
attempt a build. -/
def postEpoch (s : MgrState) (req : PostEpochRequest) : MgrState × Option SMError :=
  let s1 := { s with
    pendingCommitments := []
    validatorSet := some req.validatorSet
    epoch := req.newEpochID }
  match req.systemStateNextCommittedIndex with
  | .error e => (s1, some e)
  | .ok idx => buildCommitment { s1 with nextCommittedIndex := idx }

/-- `stateSyncManager.buildProofs`: load the events of exactly
`[fromIndex, toIndex]` from the store, build the Merkle tree, generate
one proof per event and persist the batch. -/
def buildProofsStore (st : Store) (cm : CommitmentMessage) :
    Except SMError Store :=
  match getStateSyncEventsForCommitment st cm.fromIndex cm.toIndex with
  | .error e => .error e
  | .ok events =>
    let ps := events.enum.map
      (fun pr => StateSyncProof.mk (generateProof events pr.1) pr.2)
    .ok (insertStateSyncProofs st ps)

/-- A transaction of a finalized block, as far as the engine inspects
it: either the commitment-submission transaction or anything else. -/
inductive Tx where
  | commitmentTx (cm : CommitmentMessageSigned)
  | otherTx (n : Nat)

/-- Modelled from the spec: `getCommitmentMessageSignedTx` (not under
`src/`) scans block transactions for the commitment-submission
transaction and decodes its payload. -/
def getCommitmentMessageSignedTx (txs : List Tx) : Option CommitmentMessageSigned :=
  txs.findSome? (fun t =>
    match t with
    | .commitmentTx cm => some cm
    | .otherTx _ => none)

/-- `stateSyncManager.PostBlock`: no-op without a commitment
transaction; otherwise persist the commitment, build and persist the
proofs, and only then advance `nextCommittedIndex` and clear the
pending list (a proof-building error leaves both untouched). -/
def postBlock (s : MgrState) (txs : List Tx) : MgrState × Option SMError :=
  match getCommitmentMessageSignedTx txs with
  | none => (s, none)
  | some cm =>
    match buildProofsStore (insertCommitmentMessage s.state cm) cm.message with
    | .error e => ({ s with state := insertCommitmentMessage s.state cm }, some e)
    | .ok st2 =>
      ({ s with
          state := st2
          nextCommittedIndex := cm.message.toIndex + 1
          pendingCommitments := [] }, none)

/-- `stateSyncManager.GetStateSyncProof`: serve the persisted proof;
when absent, locate the covering accepted commitment, rebuild and
persist its proofs and re-read; fail with not-found when no covering
commitment exists. -/
def getStateSyncProofOp (s : MgrState) (ssid : Nat) :
    Option StateSyncProof × MgrState × Option SMError :=
  match storeGetStateSyncProof s.state ssid with
  | some p => (some p, s, none)
  | none =>
    match getCommitmentForStateSync s.state ssid with
    | none => (none, s, some .notFound)
    | some cm =>
      match buildProofsStore s.state cm.message with
      | .error e => (none, s, some e)
      | .ok st' => (storeGetStateSyncProof st' ssid, { s with state := st' }, none)

/-! ## The runtime quorum helpers (`consensusRuntime`) -/

/-- `getQuorumSize` from the source: division by two rounded up. -/
def getQuorumSize (validatorsCount : Nat) : Nat := (validatorsCount + 1) / 2

/-- The spec's stated threshold, written from the spec's words for the
refinement comparison: `⌈2N/3⌉`. -/
def specQuorumTwoThirds (n : Nat) : Nat := (2 * n + 2) / 3

/-- The number of stored votes whose sender resolves to a validator
index (the signatures counted by the runtime aggregation loop). -/
def countedSignatures (accounts : List Account) (votes : List MessageSignature) : Nat :=
  (votes.filter (fun v => (findValidatorIndex accounts v.From).isSome)).length

/-- `consensusRuntime.getAggSignatureForCommitmentMessage`: collect the
validator votes and aggregate iff at least `getQuorumSize` of them were
counted. -/
def runtimeAggSignature (accounts : List Account) (votes : List MessageSignature) :
    Except SMError AggSig :=
  let col := collectVotes accounts votes
  if col.signatures.length < getQuorumSize accounts.length then
    .error .quorumNotReached
  else .ok ⟨aggregateSignatures col.signatures, col.bitmap⟩

/-- The payload aggregated for a quorum-reaching commitment. -/
def aggPayload (st : Store) (vs : ValidatorSet) (c : Commitment) :
    AggSig × List Nat :=
  let col := collectVotes vs.accounts (getMessageVotes st c.epoch c.hash)
  (⟨aggregateSignatures col.signatures, col.bitmap⟩, col.publicKeys)

/-! ## Invariants -/

/-- The pending-list invariant of C8: every pending commitment carries
the current epoch and starts at the current `nextCommittedIndex`. -/
def PendingInv (s : MgrState) : Prop :=
  ∀ c ∈ s.pendingCommitments,
    c.epoch = s.epoch ∧ c.fromIndex = s.nextCommittedIndex

/-- Density of the stored events: ids are assigned densely by the
anchoring contract and delivered in order, so the set of stored event
ids is downward closed. -/
def DenseEvents (st : Store) : Prop :=
  ∀ e ∈ st.events, ∀ j < e.id, ∃ e' ∈ st.events, e'.id = j

/-! ## Concrete fixtures used by the witnesses -/

/-- The concrete validator set for the C1 witness. -/
def vsExC1 : ValidatorSet := ⟨[⟨1, 10⟩, ⟨2, 20⟩], fun l => decide (2 ≤ l.length)⟩

/-- The concrete manager state for the C1 witness: no pending
commitment. -/
def sExC1 : MgrState :=
  ⟨⟨[], [], [], []⟩, ⟨5, 1, fun _ => 9⟩, [], some vsExC1, 7, 0, []⟩

/-- The concrete manager state for the C4 witness: events `0` and `1`
stored, nothing pending, window starting at `0`. -/
def sExC4 : MgrState :=
  ⟨⟨[⟨0, 5, 6, []⟩, ⟨1, 7, 8, []⟩], [], [], []⟩, ⟨5, 1, fun _ => 9⟩, [],
   some vsExC1, 7, 0, []⟩

/-- The concrete manager state for the C5 witness: the newest pending
commitment already covers both stored events. -/
def sExC5 : MgrState :=
  ⟨⟨[⟨0, 5, 6, []⟩, ⟨1, 7, 8, []⟩], [], [], []⟩, ⟨5, 1, fun _ => 9⟩,
   [NewCommitment 7 [⟨0, 5, 6, []⟩, ⟨1, 7, 8, []⟩]], some vsExC1, 7, 0, []⟩

/-- The accepted commitment of the C3 witness: range `[0, 1]`. -/
def cmExC3 : CommitmentMessageSigned := ⟨⟨99, 0, 1⟩, ⟨0, 0⟩, []⟩

/-- The block transactions of the C3 witness. -/
def txsExC3 : List Tx := [.otherTx 4, .commitmentTx cmExC3]

/-- The concrete manager state for the C3 witness: events `0` and `1`
stored, one stale pending commitment. -/
def sExC3 : MgrState :=
  ⟨⟨[⟨0, 5, 6, []⟩, ⟨1, 7, 8, []⟩], [], [], []⟩, ⟨5, 1, fun _ => 9⟩,
   [NewCommitment 7 [⟨0, 5, 6, []⟩, ⟨1, 7, 8, []⟩]], some vsExC1, 7, 0, []⟩

/-- The concrete manager state for the C7 witness: events `0` and `1`
and an accepted commitment covering them are stored, but no proofs (a
missed-commitment recovery situation). -/
def sExC7 : MgrState :=
  ⟨⟨[⟨0, 5, 6, []⟩, ⟨1, 7, 8, []⟩], [], [⟨⟨99, 0, 1⟩, ⟨0, 0⟩, []⟩], []⟩,
   ⟨5, 1, fun _ => 9⟩, [], some vsExC1, 7, 0, []⟩

/-- The concrete manager state for the C8 witness. -/
def sExC8 : MgrState :=
  ⟨⟨[⟨0, 5, 6, []⟩, ⟨1, 7, 8, []⟩], [], [], []⟩, ⟨5, 1, fun _ => 9⟩, [],
   some vsExC1, 7, 0, []⟩

/-! ## Helper lemmas -/

theorem filter_map_eq_of_fixed {α : Type} (l : List α) (p : α → Bool) (f : α → α)
    (h : ∀ w ∈ l, p (f w) = p w ∧ (p w = true → f w = w)) :
    (l.map f).filter p = l.filter p := by
  induction l with
  | nil => rfl
  | cons a l ih =>
    have ha := h a (List.mem_cons_self a l)
    have ihl := ih (fun w hw => h w (List.mem_cons_of_mem a hw))
    simp only [List.map_cons, List.filter_cons, ha.1]
    cases hpa : p a with
    | true => rw [ha.2 hpa, ihl]
    | false => exact ihl

theorem insertMessageVote_events (st : Store) (ep : Nat) (d : Digest)
    (v : MessageSignature) : ((insertMessageVote st ep d v).1).events = st.events := rfl

theorem upsertVotes_mem (votes : List VoteEntry) (ep : Nat) (d : Digest)
    (v : MessageSignature) :
    (⟨ep, d, v.From, v.signature⟩ : VoteEntry) ∈ upsertVotes votes ep d v := by
  unfold upsertVotes
  by_cases h : votes.any (voteKeyMatch ep d v.From)
  · rw [if_pos h]
    rw [List.any_eq_true] at h
    obtain ⟨w, hw, hkey⟩ := h
    refine List.mem_map.2 ⟨w, hw, ?_⟩
    rw [if_pos hkey]
    unfold voteKeyMatch at hkey
    rw [decide_eq_true_eq] at hkey
    obtain ⟨h1, h2, h3⟩ := hkey
    cases w
    simp_all
  · rw [if_neg h]
    exact List.mem_append_right _ (by simp)

theorem upsertVotes_filter_other (votes : List VoteEntry) (ep ep' : Nat)
    (d d' : Digest) (v : MessageSignature) (h : ep ≠ ep') :
    (upsertVotes votes ep d v).filter (voteAt ep' d') =
      votes.filter (voteAt ep' d') := by
  unfold upsertVotes
  by_cases hk : votes.any (voteKeyMatch ep d v.From)
  · rw [if_pos hk]
    apply filter_map_eq_of_fixed
    intro w _
    constructor
    · by_cases hw : voteKeyMatch ep d v.From w
      · rw [if_pos hw]; rfl
      · rw [if_neg hw]
    · intro hp
      have hep : w.epoch = ep' := by
        unfold voteAt at hp
        rw [decide_eq_true_eq] at hp
        exact hp.1
      apply if_neg
      unfold voteKeyMatch
      rw [decide_eq_true_eq]
      rintro ⟨he, -, -⟩
      omega
  · rw [if_neg hk, List.filter_append]
    have hsing : (List.filter (voteAt ep' d')
        [(⟨ep, d, v.From, v.signature⟩ : VoteEntry)]) = [] := by
      simp [voteAt, List.filter, h]
    rw [hsing, List.append_nil]

theorem getMessageVotes_insert_other (st : Store) (ep ep' : Nat) (d d' : Digest)
    (v : MessageSignature) (h : ep ≠ ep') :
    getMessageVotes ((insertMessageVote st ep d v).1) ep' d' =
      getMessageVotes st ep' d' := by
  unfold getMessageVotes insertMessageVote
  rw [upsertVotes_filter_other st.votes ep ep' d d' v h]

theorem getMessageVotes_insert_self (st : Store) (ep : Nat) (d : Digest)
    (v : MessageSignature) :
    (⟨v.From, v.signature⟩ : MessageSignature) ∈
      getMessageVotes ((insertMessageVote st ep d v).1) ep d := by
  have hmem := upsertVotes_mem st.votes ep d v
  unfold getMessageVotes insertMessageVote
  refine List.mem_map.2 ⟨⟨ep, d, v.From, v.signature⟩, ?_, rfl⟩
  refine List.mem_filter.2 ⟨hmem, ?_⟩
  unfold voteAt
  simp

/-! ## C2 — the quorum threshold -/

/-- C2 counterexample: the claim says the threshold for aggregation to
proceed is `⌈2N/3⌉`; at `N = 2` validators the source's `getQuorumSize`
is `1`, not `⌈4/3⌉ = 2`, and the runtime aggregation proceeds with a
single counted signature. -/
theorem quorum_threshold_not_two_thirds :
    getQuorumSize 2 ≠ specQuorumTwoThirds 2 ∧
    runtimeAggSignature [⟨1, 10⟩, ⟨2, 20⟩] [⟨1, 5⟩] = .ok ⟨5, 1⟩ ∧
    countedSignatures [⟨1, 10⟩, ⟨2, 20⟩] [⟨1, 5⟩] = 1 ∧
    specQuorumTwoThirds 2 = 2 := by
  refine ⟨by decide, ?_, by decide, by decide⟩
  rfl

/-- C2 (amended): for every validator-set size `N`, the quorum
threshold used when deciding whether the collected commitment votes
suffice equals `⌈N/2⌉` — aggregation proceeds iff at least
`getQuorumSize N = (N+1)/2` signatures were collected, and
`getQuorumSize N` is the least `k` with `2k ≥ N`. -/
theorem quorum_threshold_is_half (accounts : List Account)
    (votes : List MessageSignature) (k : Nat) :
    ((∃ a, runtimeAggSignature accounts votes = .ok a) ↔
      getQuorumSize accounts.length ≤ (collectVotes accounts votes).signatures.length) ∧
    accounts.length ≤ 2 * getQuorumSize accounts.length ∧
    (accounts.length ≤ 2 * k → getQuorumSize accounts.length ≤ k) := by
  refine ⟨?_, ?_, ?_⟩
  · unfold runtimeAggSignature
    by_cases h : (collectVotes accounts votes).signatures.length <
        getQuorumSize accounts.length
    · simp only [h, if_true]
      constructor
      · rintro ⟨a, ha⟩; cases ha
      · intro hle; omega
    · simp only [h, if_false]
      exact ⟨fun _ => by omega, fun _ => ⟨_, rfl⟩⟩
  · unfold getQuorumSize; omega
  · intro hk; unfold getQuorumSize; omega

/-- Witness for the amended C2 theorem at `N = 3` validators with two
validator votes: `getQuorumSize 3 = 2 ≤ 2` collected signatures, so
aggregation proceeds. -/
theorem quorum_threshold_is_half_witness :
    (∃ a, runtimeAggSignature [⟨1, 10⟩, ⟨2, 20⟩, ⟨3, 30⟩] [⟨1, 5⟩, ⟨2, 6⟩] = .ok a) ∧
    getQuorumSize 3 ≤ 2 :=
  ⟨(quorum_threshold_is_half [⟨1, 10⟩, ⟨2, 20⟩, ⟨3, 30⟩] [⟨1, 5⟩, ⟨2, 6⟩] 2).1.mpr
      (by decide),
   (quorum_threshold_is_half [⟨1, 10⟩, ⟨2, 20⟩, ⟨3, 30⟩] [⟨1, 5⟩, ⟨2, 6⟩] 2).2.2
      (by decide)⟩

/-! ## C1 — `Commitment()` selection -/

theorem getAggSig_eq_ite (st : Store) (vs : ValidatorSet) (c : Commitment) :
    getAggSignatureForCommitmentMessage st vs c =
      if hasQuorumFor st vs c then .ok (aggPayload st vs c)
      else .error .quorumNotReached := rfl

theorem commitmentLoop_cons (st : Store) (vs : ValidatorSet) (c : Commitment)
    (rest : List Commitment) :
    commitmentLoop st vs (c :: rest) =
      if hasQuorumFor st vs c then .ok (some (mkSignedCommitment st vs c))
      else commitmentLoop st vs rest := by
  rw [commitmentLoop, getAggSig_eq_ite]
  cases h : hasQuorumFor st vs c <;>
    simp [h, mkSignedCommitment, aggPayload]

theorem commitmentLoop_eq_find (st : Store) (vs : ValidatorSet)
    (l : List Commitment) :
    commitmentLoop st vs l =
      .ok ((l.find? (fun c => hasQuorumFor st vs c)).map
        (mkSignedCommitment st vs)) := by
  induction l with
  | nil => rfl
  | cons c rest ih =>
    rw [commitmentLoop_cons]
    cases h : hasQuorumFor st vs c
    · rw [if_neg (by simp [h]), ih, List.find?_cons_of_neg _ (by simp [h])]
    · rw [if_pos (by simp [h]), List.find?_cons_of_pos _ (by simp [h])]
      rfl

theorem find?_max_of_sorted (l : List Commitment) (q : Commitment → Bool)
    (c : Commitment) (hp : l.Pairwise (fun a b => b.toIndex ≤ a.toIndex))
    (h : l.find? q = some c) :
    ∀ c' ∈ l, q c' = true → c'.toIndex ≤ c.toIndex := by
  induction l with
  | nil => cases h
  | cons a rest ih =>
    rw [List.pairwise_cons] at hp
    cases hqa : q a
    · rw [List.find?_cons_of_neg _ (by simp [hqa])] at h
      intro c' hc' hq
      rcases List.mem_cons.1 hc' with rfl | h'
      · rw [hq] at hqa; cases hqa
      · exact ih hp.2 h c' h' hq
    · rw [List.find?_cons_of_pos _ hqa] at h
      injection h with h
      subst h
      intro c' hc' hq
      rcases List.mem_cons.1 hc' with rfl | h'
      · exact le_refl _
      · exact hp.1 c' h'

/-- C1: `Commitment()` returns the pending commitment with the largest
`toId` among those whose vote set has quorum, iterating the pending
list from newest to oldest and taking the first quorum-reaching
candidate; with no quorum-reaching pending commitment (in particular an
empty pending list) it returns nil and no error.  The pending list is
sorted by `toIndex` by construction (`buildCommitment` only appends
strictly larger windows), which the hypothesis records. -/
theorem commitment_selects_largest_quorum (s : MgrState) (vs : ValidatorSet)
    (hvs : s.validatorSet = some vs)
    (hsorted : s.pendingCommitments.Pairwise (fun a b => a.toIndex ≤ b.toIndex)) :
    (commitmentOp s = .ok none ↔
      ∀ c ∈ s.pendingCommitments, hasQuorumFor s.state vs c = false) ∧
    (∀ m, commitmentOp s = .ok (some m) →
      ∃ c ∈ s.pendingCommitments, hasQuorumFor s.state vs c = true ∧
        m = mkSignedCommitment s.state vs c ∧
        ∀ c' ∈ s.pendingCommitments, hasQuorumFor s.state vs c' = true →
          c'.toIndex ≤ c.toIndex) ∧
    (∃ o, commitmentOp s = .ok o) := by
  have hop : commitmentOp s =
      .ok ((s.pendingCommitments.reverse.find?
        (fun c => hasQuorumFor s.state vs c)).map (mkSignedCommitment s.state vs)) := by
    unfold commitmentOp
    rw [hvs]
    exact commitmentLoop_eq_find _ _ _
  refine ⟨?_, ?_, ?_⟩
  · rw [hop]
    constructor
    · intro h c hc
      rw [Except.ok.injEq, Option.map_eq_none', List.find?_eq_none] at h
      have := h c (List.mem_reverse.2 hc)
      simpa using this
    · intro h
      rw [Except.ok.injEq, Option.map_eq_none', List.find?_eq_none]
      intro c hc
      simp [h c (List.mem_reverse.1 hc)]
  · intro m hm
    rw [hop, Except.ok.injEq, Option.map_eq_some'] at hm
    obtain ⟨c, hfind, hmk⟩ := hm
    have hcmem : c ∈ s.pendingCommitments :=
      List.mem_reverse.1 (List.mem_of_find?_eq_some hfind)
    have hq : hasQuorumFor s.state vs c = true := List.find?_some hfind
    refine ⟨c, hcmem, hq, hmk.symm, ?_⟩
    intro c' hc' hq'
    exact find?_max_of_sorted _ _ _
      ((List.pairwise_reverse).2 hsorted) hfind c' (List.mem_reverse.2 hc') hq'
  · rw [hop]
    exact ⟨_, rfl⟩

/-- Witness for C1 at a concrete state with an empty pending list:
`Commitment()` returns nil without an error. -/
theorem commitment_selects_largest_quorum_witness :
    commitmentOp sExC1 = .ok none :=
  ((commitment_selects_largest_quorum sExC1 vsExC1 rfl List.Pairwise.nil).1).mpr
    (fun c hc => absurd hc (List.not_mem_nil c))

/-! ## C6 / C10 — vote ingress -/

/-- C6: for every incoming gossip vote, missing epoch metadata or a
stale epoch drops the vote silently (no error, no store write); a
sender outside the current validator set fails with the
not-a-validator error and writes nothing; otherwise the vote is
inserted into the store under the message's epoch. -/
theorem saveVote_spec (s : MgrState) (msg : TransportMessage) :
    (s.validatorSet = none → saveVote s msg = (s, none)) ∧
    (∀ vs, s.validatorSet = some vs →
      (msg.epochNumber < s.epoch → saveVote s msg = (s, none)) ∧
      (¬ msg.epochNumber < s.epoch → vs.includes msg.nodeID = false →
        saveVote s msg = (s, some .notAValidator)) ∧
      (¬ msg.epochNumber < s.epoch → vs.includes msg.nodeID = true →
        saveVote s msg =
          ({ s with
              state := (insertMessageVote s.state msg.epochNumber msg.hash
                ⟨msg.nodeID, msg.signature⟩).1 }, none))) := by
  constructor
  · intro h; unfold saveVote; rw [h]
  · intro vs hvs
    refine ⟨fun hlt => ?_, fun hge hnin => ?_, fun hge hin => ?_⟩
    · unfold saveVote; rw [hvs]; simp [hlt]
    · unfold saveVote; rw [hvs]; simp [hge, hnin]
    · unfold saveVote; rw [hvs]; simp [hge, hin]

/-- Witness for C6 at a concrete state: a stale-epoch vote is dropped
silently. -/
theorem saveVote_spec_witness :
    saveVote
      ⟨⟨[], [], [], []⟩, ⟨5, 1, fun _ => 9⟩, [], some ⟨[⟨1, 10⟩], fun _ => true⟩, 7, 0, []⟩
      ⟨⟨0, 0, 0⟩, 5, 1, 3⟩ =
      (⟨⟨[], [], [], []⟩, ⟨5, 1, fun _ => 9⟩, [], some ⟨[⟨1, 10⟩], fun _ => true⟩, 7, 0, []⟩,
       none) :=
  ((saveVote_spec _ _).2 _ rfl).1 (by decide)

/-- C10: a gossip vote whose epoch is strictly greater than the current
epoch is accepted when the sender is a current validator, and the vote
is stored keyed under the message's own (future) epoch number; the vote
collections of the current epoch are untouched. -/
theorem saveVote_future_epoch (s : MgrState) (msg : TransportMessage)
    (vs : ValidatorSet) (hvs : s.validatorSet = some vs)
    (hfut : s.epoch < msg.epochNumber) (hin : vs.includes msg.nodeID = true) :
    (saveVote s msg).2 = none ∧
    (⟨msg.nodeID, msg.signature⟩ : MessageSignature) ∈
      getMessageVotes ((saveVote s msg).1).state msg.epochNumber msg.hash ∧
    (∀ d, getMessageVotes ((saveVote s msg).1).state s.epoch d =
      getMessageVotes s.state s.epoch d) := by
  have hge : ¬ msg.epochNumber < s.epoch := by omega
  have hrun : saveVote s msg =
      ({ s with
          state := (insertMessageVote s.state msg.epochNumber msg.hash
            ⟨msg.nodeID, msg.signature⟩).1 }, none) := by
    unfold saveVote; rw [hvs]; simp [hge, hin]
  refine ⟨by rw [hrun], ?_, ?_⟩
  · rw [hrun]
    exact getMessageVotes_insert_self s.state msg.epochNumber msg.hash
      ⟨msg.nodeID, msg.signature⟩
  · intro d
    rw [hrun]
    exact getMessageVotes_insert_other s.state msg.epochNumber s.epoch msg.hash d
      ⟨msg.nodeID, msg.signature⟩ (by omega)

/-- Witness for C10: a vote for epoch `9 > 7` from validator `1` is
stored under epoch `9` and leaves epoch `7`'s collections empty. -/
theorem saveVote_future_epoch_witness :
    (saveVote
        ⟨⟨[], [], [], []⟩, ⟨5, 1, fun _ => 9⟩, [], some ⟨[⟨1, 10⟩], fun _ => true⟩, 7, 0, []⟩
        ⟨⟨0, 0, 0⟩, 4, 1, 9⟩).2 = none ∧
    (⟨1, 4⟩ : MessageSignature) ∈
      getMessageVotes
        ((saveVote
          ⟨⟨[], [], [], []⟩, ⟨5, 1, fun _ => 9⟩, [], some ⟨[⟨1, 10⟩], fun _ => true⟩, 7, 0, []⟩
          ⟨⟨0, 0, 0⟩, 4, 1, 9⟩).1).state 9 ⟨0, 0, 0⟩ := by
  have h := saveVote_future_epoch
    ⟨⟨[], [], [], []⟩, ⟨5, 1, fun _ => 9⟩, [], some ⟨[⟨1, 10⟩], fun _ => true⟩, 7, 0, []⟩
    ⟨⟨0, 0, 0⟩, 4, 1, 9⟩ ⟨[⟨1, 10⟩], fun _ => true⟩ rfl (by decide) (by decide)
  exact ⟨h.1, h.2.1⟩

/-! ## C4 / C5 — `buildCommitment` boundary and idempotence -/

theorem buildCommitment_eq (s : MgrState) :
    buildCommitment s =
      if (scanWindow s).length < minCommitmentSize then (s, none)
      else if alreadyCovered s.pendingCommitments (scanWindow s) then (s, none)
      else (buildApplied s (scanWindow s), none) := by
  unfold buildCommitment getStateSyncEventsForCommitment scanWindow
  by_cases h : (eventsInRange s.state s.nextCommittedIndex
      (s.nextCommittedIndex + s.config.maxCommitmentSize - 1)).length <
      minCommitmentSize
  · simp only [h, if_true, if_pos h]
  · simp only [h, if_false, if_neg h]

theorem insertStateSyncEvent_contains (st : Store) (ev : StateSyncEvent) :
    ((insertStateSyncEvent st ev).events.any (fun e => e.id = ev.id)) = true := by
  unfold insertStateSyncEvent
  by_cases h : st.events.any (fun e => decide (e.id = ev.id))
  · rw [if_pos h]; exact h
  · rw [if_neg h]; simp

theorem insertStateSyncEvent_idem_of_contains (st : Store) (ev : StateSyncEvent)
    (h : st.events.any (fun e => e.id = ev.id) = true) :
    insertStateSyncEvent st ev = st := by
  unfold insertStateSyncEvent
  rw [if_pos h]

theorem buildCommitment_events (s : MgrState) :
    ((buildCommitment s).1).state.events = s.state.events := by
  rw [buildCommitment_eq]
  by_cases h1 : (scanWindow s).length < minCommitmentSize
  · rw [if_pos h1]
  · rw [if_neg h1]
    by_cases h2 : alreadyCovered s.pendingCommitments (scanWindow s)
    · rw [if_pos h2]
    · rw [if_neg h2]
      rfl

theorem scanWindow_congr (s s' : MgrState) (h1 : s'.state.events = s.state.events)
    (h2 : s'.nextCommittedIndex = s.nextCommittedIndex)
    (h3 : s'.config.maxCommitmentSize = s.config.maxCommitmentSize) :
    scanWindow s' = scanWindow s := by
  unfold scanWindow eventsInRange
  rw [h1, h2, h3]

theorem buildCommitment_idem (s : MgrState) :
    buildCommitment ((buildCommitment s).1) = ((buildCommitment s).1, none) := by
  rw [buildCommitment_eq s]
  by_cases h1 : (scanWindow s).length < minCommitmentSize
  · rw [if_pos h1]
    show buildCommitment s = (s, none)
    rw [buildCommitment_eq s, if_pos h1]
  · rw [if_neg h1]
    by_cases h2 : alreadyCovered s.pendingCommitments (scanWindow s)
    · rw [if_pos h2]
      show buildCommitment s = (s, none)
      rw [buildCommitment_eq s, if_neg h1, if_pos h2]
    · rw [if_neg h2]
      show buildCommitment (buildApplied s (scanWindow s)) =
        (buildApplied s (scanWindow s), none)
      have hscan : scanWindow (buildApplied s (scanWindow s)) = scanWindow s :=
        scanWindow_congr s _ rfl rfl rfl
      have hcov : alreadyCovered
          (buildApplied s (scanWindow s)).pendingCommitments (scanWindow s) = true := by
        show alreadyCovered
          (s.pendingCommitments ++ [NewCommitment s.epoch (scanWindow s)])
          (scanWindow s) = true
        unfold alreadyCovered
        rw [List.getLast?_concat]
        simp [NewCommitment]
      rw [buildCommitment_eq, hscan, if_neg h1, if_pos hcov]

theorem addLog_idem (s : MgrState) (log : EventLog) :
    addLog (addLog s log) log = addLog s log := by
  cases log with
  | other n => rfl
  | stateSync i sd r d =>
    show (addLog ((buildCommitment
        { s with state := insertStateSyncEvent s.state ⟨i, sd, r, d⟩ }).1)
      (.stateSync i sd r d)) = _
    have hx : insertStateSyncEvent
        ((buildCommitment
          { s with state := insertStateSyncEvent s.state ⟨i, sd, r, d⟩ }).1).state
        ⟨i, sd, r, d⟩ =
        ((buildCommitment
          { s with state := insertStateSyncEvent s.state ⟨i, sd, r, d⟩ }).1).state := by
      apply insertStateSyncEvent_idem_of_contains
      rw [buildCommitment_events]
      exact insertStateSyncEvent_contains s.state ⟨i, sd, r, d⟩
    show (buildCommitment
        { (buildCommitment
            { s with state := insertStateSyncEvent s.state ⟨i, sd, r, d⟩ }).1 with
          state := insertStateSyncEvent
            ((buildCommitment
              { s with state := insertStateSyncEvent s.state ⟨i, sd, r, d⟩ }).1).state
            ⟨i, sd, r, d⟩ }).1 = _
    rw [hx]
    show (buildCommitment ((buildCommitment
        { s with state := insertStateSyncEvent s.state ⟨i, sd, r, d⟩ }).1)).1 = _
    rw [buildCommitment_idem]
    rfl

/-- C4: with exactly `minCommitmentSize = 2` events available in the
window starting at `nextCommittedIndex` (and the window not already
covered by the newest pending commitment), the build creates a new
pending commitment, records the self-vote in the store, gossips it and
appends it; with fewer than `minCommitmentSize` events the build is a
no-op returning no error. -/
theorem buildCommitment_min_boundary (s : MgrState) :
    (∀ e1 e2, scanWindow s = [e1, e2] →
      alreadyCovered s.pendingCommitments [e1, e2] = false →
      buildCommitment s = (buildApplied s [e1, e2], none) ∧
      (buildApplied s [e1, e2]).pendingCommitments =
        s.pendingCommitments ++ [NewCommitment s.epoch [e1, e2]] ∧
      (⟨s.epoch, (NewCommitment s.epoch [e1, e2]).hash, s.config.keyAddr,
        s.config.keySign (NewCommitment s.epoch [e1, e2]).hash⟩ : VoteEntry) ∈
          (buildApplied s [e1, e2]).state.votes ∧
      (buildApplied s [e1, e2]).outbox =
        s.outbox ++ [⟨(NewCommitment s.epoch [e1, e2]).hash,
          s.config.keySign (NewCommitment s.epoch [e1, e2]).hash,
          s.config.keyAddr, s.epoch⟩]) ∧
    ((scanWindow s).length < minCommitmentSize →
      buildCommitment s = (s, none)) := by
  constructor
  · intro e1 e2 hscan hcov
    refine ⟨?_, rfl, ?_, rfl⟩
    · rw [buildCommitment_eq, hscan]
      rw [if_neg (by simp [minCommitmentSize]), if_neg (by simp [hcov])]
    · exact upsertVotes_mem s.state.votes s.epoch
        (NewCommitment s.epoch [e1, e2]).hash
        ⟨s.config.keyAddr, s.config.keySign (NewCommitment s.epoch [e1, e2]).hash⟩
  · intro h
    rw [buildCommitment_eq, if_pos h]

/-- Witness for C4: at the concrete state with exactly two stored
events the build appends the new commitment. -/
theorem buildCommitment_min_boundary_witness :
    buildCommitment sExC4 =
      (buildApplied sExC4 [⟨0, 5, 6, []⟩, ⟨1, 7, 8, []⟩], none) ∧
    (buildApplied sExC4 [⟨0, 5, 6, []⟩, ⟨1, 7, 8, []⟩]).pendingCommitments =
      sExC4.pendingCommitments ++ [NewCommitment sExC4.epoch [⟨0, 5, 6, []⟩, ⟨1, 7, 8, []⟩]] := by
  have h := (buildCommitment_min_boundary sExC4).1 ⟨0, 5, 6, []⟩ ⟨1, 7, 8, []⟩
    (by decide) (by decide)
  exact ⟨h.1, h.2.1⟩

/-- C5: the commitment build is idempotent on an unchanged window — if
the newest pending commitment already covers through the last event id
of the scan, the build changes nothing and returns no error; and two
consecutive `AddLog` calls with the same log leave the manager state
(store, pending list and gossip outbox alike) identical to one call. -/
theorem buildCommitment_idempotence (s : MgrState) (log : EventLog) :
    (∀ c, s.pendingCommitments.getLast? = some c →
      lastId (scanWindow s) ≤ c.toIndex → buildCommitment s = (s, none)) ∧
    addLog (addLog s log) log = addLog s log := by
  constructor
  · intro c hc hle
    rw [buildCommitment_eq]
    by_cases h1 : (scanWindow s).length < minCommitmentSize
    · rw [if_pos h1]
    · have hcov : alreadyCovered s.pendingCommitments (scanWindow s) = true := by
        unfold alreadyCovered
        rw [hc]
        simpa using hle
      rw [if_neg h1, if_pos hcov]
  · exact addLog_idem s log

/-- Witness for C5: at the concrete covered state the build is a no-op
and a repeated `AddLog` changes nothing further. -/
theorem buildCommitment_idempotence_witness :
    buildCommitment sExC5 = (sExC5, none) ∧
    addLog (addLog sExC5 (.stateSync 1 7 8 [])) (.stateSync 1 7 8 []) =
      addLog sExC5 (.stateSync 1 7 8 []) :=
  ⟨(buildCommitment_idempotence sExC5 (.stateSync 1 7 8 [])).1
      (NewCommitment 7 [⟨0, 5, 6, []⟩, ⟨1, 7, 8, []⟩]) (by decide) (by decide),
   (buildCommitment_idempotence sExC5 (.stateSync 1 7 8 [])).2⟩

/-! ## Lemmas about the event window and the proof store -/

theorem find?_id_eq (st : Store) (i : Nat) (e : StateSyncEvent)
    (h : st.events.find? (fun e' => e'.id = i) = some e) : e.id = i := by
  have := List.find?_some h
  simpa using this

theorem mem_eventsInRange (st : Store) (a b : Nat) (e : StateSyncEvent)
    (h : e ∈ eventsInRange st a b) : a ≤ e.id ∧ e.id ≤ b ∧ e ∈ st.events := by
  unfold eventsInRange at h
  rw [List.mem_filterMap] at h
  obtain ⟨i, hi, hfind⟩ := h
  have hid : e.id = i := find?_id_eq st i e hfind
  have hmem : e ∈ st.events := List.mem_of_find?_eq_some hfind
  rw [List.mem_range'] at hi
  obtain ⟨k, hk, hik⟩ := hi
  exact ⟨by omega, by omega, hmem⟩

theorem eventsInRange_inj (st : Store) (a b : Nat) (e1 e2 : StateSyncEvent)
    (h1 : e1 ∈ eventsInRange st a b) (h2 : e2 ∈ eventsInRange st a b)
    (hid : e1.id = e2.id) : e1 = e2 := by
  unfold eventsInRange at h1 h2
  rw [List.mem_filterMap] at h1 h2
  obtain ⟨i1, _, hf1⟩ := h1
  obtain ⟨i2, _, hf2⟩ := h2
  have hi1 : e1.id = i1 := find?_id_eq st i1 e1 hf1
  have hi2 : e2.id = i2 := find?_id_eq st i2 e2 hf2
  have heq : i1 = i2 := by omega
  subst heq
  rw [hf1] at hf2
  exact Option.some.inj hf2

theorem find?_filter_of_imp {α : Type} (l : List α) (p f : α → Bool)
    (h : ∀ x ∈ l, p x = true → f x = true) :
    (l.filter f).find? p = l.find? p := by
  induction l with
  | nil => rfl
  | cons a l ih =>
    have ihl := ih (fun x hx => h x (List.mem_cons_of_mem a hx))
    rw [List.filter_cons]
    cases hfa : f a
    · have hpa : p a = false := by
        cases hpa : p a
        · rfl
        · rw [h a (List.mem_cons_self a l) hpa] at hfa; cases hfa
      rw [if_neg (by simp), List.find?_cons_of_neg _ (by simp [hpa])]
      exact ihl
    · rw [if_pos rfl]
      cases hpa : p a
      · rw [List.find?_cons_of_neg _ (by simp [hpa]),
          List.find?_cons_of_neg _ (by simp [hpa])]
        exact ihl
      · rw [List.find?_cons_of_pos _ hpa, List.find?_cons_of_pos _ hpa]

theorem storeGet_insertProofs_of_mem (st : Store) (ps : List StateSyncProof)
    (i : Nat) (h : ps.any (fun p => p.stateSync.id = i) = true) :
    storeGetStateSyncProof (insertStateSyncProofs st ps) i =
      ps.find? (fun p => p.stateSync.id = i) := by
  unfold storeGetStateSyncProof insertStateSyncProofs
  rw [List.find?_append]
  have hnone : ((st.proofs.filter
      (fun q => ¬ ps.any (fun p => p.stateSync.id = q.stateSync.id))).find?
      (fun p => p.stateSync.id = i)) = none := by
    rw [List.find?_eq_none]
    intro q hq hqi
    rw [List.mem_filter] at hq
    have hq2 := hq.2
    rw [decide_eq_true_eq] at hq2
    rw [decide_eq_true_eq] at hqi
    apply hq2
    rw [hqi]
    exact h
  rw [hnone]
  rfl

theorem storeGet_insertProofs_of_not_mem (st : Store) (ps : List StateSyncProof)
    (i : Nat) (h : ∀ p ∈ ps, p.stateSync.id ≠ i) :
    storeGetStateSyncProof (insertStateSyncProofs st ps) i =
      storeGetStateSyncProof st i := by
  unfold storeGetStateSyncProof insertStateSyncProofs
  rw [List.find?_append]
  have hps : (ps.find? (fun p => p.stateSync.id = i)) = none := by
    rw [List.find?_eq_none]
    intro p hp hpi
    rw [decide_eq_true_eq] at hpi
    exact h p hp hpi
  have himp : ∀ q ∈ st.proofs, (decide (q.stateSync.id = i)) = true →
      (decide (¬ ps.any (fun p => p.stateSync.id = q.stateSync.id) = true)) = true := by
    intro q _ hqi
    rw [decide_eq_true_eq] at hqi
    rw [decide_eq_true_eq]
    intro hany
    rw [List.any_eq_true] at hany
    obtain ⟨p, hp, hpq⟩ := hany
    rw [decide_eq_true_eq] at hpq
    exact h p hp (by omega)
  rw [hps, find?_filter_of_imp st.proofs _ _ himp]
  cases st.proofs.find? (fun p => p.stateSync.id = i) <;> rfl

theorem buildProofsStore_ok (st : Store) (cm : CommitmentMessage)
    (hlen : minCommitmentSize ≤ (eventsInRange st cm.fromIndex cm.toIndex).length) :
    ∃ st', buildProofsStore st cm = .ok st' ∧
      st'.events = st.events ∧ st'.votes = st.votes ∧
      st'.commitments = st.commitments ∧
      (∀ e ∈ eventsInRange st cm.fromIndex cm.toIndex,
        ∃ pr, storeGetStateSyncProof st' e.id = some pr ∧ pr.stateSync = e) ∧
      (∀ i, (∀ e ∈ eventsInRange st cm.fromIndex cm.toIndex, e.id ≠ i) →
        storeGetStateSyncProof st' i = storeGetStateSyncProof st i) := by
  have hnot : ¬ (eventsInRange st cm.fromIndex cm.toIndex).length <
      minCommitmentSize := by omega
  have hred : buildProofsStore st cm = .ok (insertStateSyncProofs st
      ((eventsInRange st cm.fromIndex cm.toIndex).enum.map
        (fun pr => StateSyncProof.mk
          (generateProof (eventsInRange st cm.fromIndex cm.toIndex) pr.1) pr.2))) := by
    unfold buildProofsStore getStateSyncEventsForCommitment
    rw [if_neg hnot]
  have hmap : (((eventsInRange st cm.fromIndex cm.toIndex).enum.map
      (fun pr => StateSyncProof.mk
        (generateProof (eventsInRange st cm.fromIndex cm.toIndex) pr.1) pr.2)).map
      (fun p => p.stateSync)) = eventsInRange st cm.fromIndex cm.toIndex := by
    rw [List.map_map]
    exact List.enumFrom_map_snd 0 (eventsInRange st cm.fromIndex cm.toIndex)
  refine ⟨_, hred, rfl, rfl, rfl, ?_, ?_⟩
  · intro e he
    obtain ⟨p, hp, hpe⟩ := List.mem_map.1 (hmap ▸ he)
    have hany : (((eventsInRange st cm.fromIndex cm.toIndex).enum.map
        (fun pr => StateSyncProof.mk
          (generateProof (eventsInRange st cm.fromIndex cm.toIndex) pr.1) pr.2)).any
        (fun p => p.stateSync.id = e.id)) = true :=
      List.any_eq_true.2 ⟨p, hp, by simp [hpe]⟩
    have hget := storeGet_insertProofs_of_mem st _ e.id hany
    have hfindSome : (((eventsInRange st cm.fromIndex cm.toIndex).enum.map
        (fun pr => StateSyncProof.mk
          (generateProof (eventsInRange st cm.fromIndex cm.toIndex) pr.1) pr.2)).find?
        (fun p => p.stateSync.id = e.id)).isSome :=
      List.find?_isSome.2 ⟨p, hp, by simp [hpe]⟩
    obtain ⟨pr, hpr⟩ := Option.isSome_iff_exists.1 hfindSome
    have hprid : pr.stateSync.id = e.id := by
      have := List.find?_some hpr
      simpa using this
    have hprmem : pr.stateSync ∈ eventsInRange st cm.fromIndex cm.toIndex := by
      rw [← hmap]
      exact List.mem_map_of_mem _ (List.mem_of_find?_eq_some hpr)
    have hpre : pr.stateSync = e :=
      eventsInRange_inj st cm.fromIndex cm.toIndex _ _ hprmem he hprid
    exact ⟨pr, by rw [hget, hpr], hpre⟩
  · intro i hi
    apply storeGet_insertProofs_of_not_mem
    intro p hp
    have hmem : p.stateSync ∈ eventsInRange st cm.fromIndex cm.toIndex := by
      rw [← hmap]
      exact List.mem_map_of_mem _ hp
    exact hi p.stateSync hmem

/-! ## C3 — `PostBlock` -/

/-- C3: for every finalized block, `PostBlock` is an error-free no-op
when the transactions hold no commitment-submission transaction; when
one is found it persists the decoded commitment, builds and persists
per-event proofs over exactly the `[fromId, toId]` range from the
events loaded from the store, and only then advances
`nextCommittedIndex` to `toId + 1` and clears the pending list — a
proof-building failure leaves `nextCommittedIndex` and the pending list
untouched. -/
theorem postBlock_spec (s : MgrState) (txs : List Tx) :
    (getCommitmentMessageSignedTx txs = none → postBlock s txs = (s, none)) ∧
    (∀ cm, getCommitmentMessageSignedTx txs = some cm →
      (minCommitmentSize ≤
          (eventsInRange s.state cm.message.fromIndex cm.message.toIndex).length →
        ∃ st', buildProofsStore (insertCommitmentMessage s.state cm) cm.message =
            .ok st' ∧
          postBlock s txs =
            ({ s with
                state := st'
                nextCommittedIndex := cm.message.toIndex + 1
                pendingCommitments := [] }, none) ∧
          st'.commitments = s.state.commitments ++ [cm] ∧
          st'.events = s.state.events ∧
          (∀ e ∈ eventsInRange s.state cm.message.fromIndex cm.message.toIndex,
            ∃ pr, storeGetStateSyncProof st' e.id = some pr ∧ pr.stateSync = e) ∧
          (∀ e ∈ eventsInRange s.state cm.message.fromIndex cm.message.toIndex,
            cm.message.fromIndex ≤ e.id ∧ e.id ≤ cm.message.toIndex) ∧
          (∀ i, (∀ e ∈ eventsInRange s.state cm.message.fromIndex cm.message.toIndex,
              e.id ≠ i) →
            storeGetStateSyncProof st' i = storeGetStateSyncProof s.state i)) ∧
      ((eventsInRange s.state cm.message.fromIndex cm.message.toIndex).length <
          minCommitmentSize →
        postBlock s txs = ({ s with state := insertCommitmentMessage s.state cm },
          some .notEnoughStateSyncs))) := by
  constructor
  · intro h
    unfold postBlock
    rw [h]
  · intro cm htx
    have hE : eventsInRange (insertCommitmentMessage s.state cm)
        cm.message.fromIndex cm.message.toIndex =
        eventsInRange s.state cm.message.fromIndex cm.message.toIndex := rfl
    constructor
    · intro hlen
      obtain ⟨st', hok, hev, hvo, hcs, hmem, hother⟩ :=
        buildProofsStore_ok (insertCommitmentMessage s.state cm) cm.message
          (by rw [hE]; exact hlen)
      refine ⟨st', hok, ?_, ?_, hev, ?_, ?_, ?_⟩
      · unfold postBlock
        simp only [htx, hok]
      · rw [hcs]
        rfl
      · intro e he
        exact hmem e (by rw [hE]; exact he)
      · intro e he
        have := mem_eventsInRange s.state cm.message.fromIndex cm.message.toIndex e he
        exact ⟨this.1, this.2.1⟩
      · intro i hi
        rw [hother i (fun e he => hi e (by rw [← hE]; exact he))]
        rfl
    · intro hlt
      have herr : buildProofsStore (insertCommitmentMessage s.state cm) cm.message =
          .error .notEnoughStateSyncs := by
        unfold buildProofsStore getStateSyncEventsForCommitment
        rw [if_pos (by rw [hE]; exact hlt)]
      unfold postBlock
      simp only [htx, herr]

/-- Witness for C3 at the concrete state: the commitment transaction
for range `[0, 1]` advances `nextCommittedIndex` to `2`, clears the
pending list and reports no error. -/
theorem postBlock_spec_witness :
    (postBlock sExC3 txsExC3).2 = none ∧
    (postBlock sExC3 txsExC3).1.nextCommittedIndex = 2 ∧
    (postBlock sExC3 txsExC3).1.pendingCommitments = [] := by
  obtain ⟨st', hok, hpb, hcs, hev, hmem, hrange, hother⟩ :=
    ((postBlock_spec sExC3 txsExC3).2 cmExC3 rfl).1 (by decide)
  rw [hpb]
  exact ⟨rfl, rfl, rfl⟩

/-! ## C7 — `GetStateSyncProof` -/

/-- C7: `GetStateSyncProof(id)` returns the persisted proof when one
exists; when none is persisted it locates the covering accepted
commitment, rebuilds and persists the proofs for the commitment's whole
range and returns the re-read proof; with no covering accepted
commitment it fails with a not-found error. -/
theorem getStateSyncProof_spec (s : MgrState) (ssid : Nat) :
    (∀ p, storeGetStateSyncProof s.state ssid = some p →
      getStateSyncProofOp s ssid = (some p, s, none)) ∧
    (storeGetStateSyncProof s.state ssid = none →
      getCommitmentForStateSync s.state ssid = none →
      getStateSyncProofOp s ssid = (none, s, some .notFound)) ∧
    (∀ cm, storeGetStateSyncProof s.state ssid = none →
      getCommitmentForStateSync s.state ssid = some cm →
      minCommitmentSize ≤
        (eventsInRange s.state cm.message.fromIndex cm.message.toIndex).length →
      (∃ e ∈ eventsInRange s.state cm.message.fromIndex cm.message.toIndex,
        e.id = ssid) →
      ∃ p st', getStateSyncProofOp s ssid = (some p, { s with state := st' }, none) ∧
        p.stateSync.id = ssid ∧
        storeGetStateSyncProof st' ssid = some p) := by
  refine ⟨?_, ?_, ?_⟩
  · intro p hp
    unfold getStateSyncProofOp
    rw [hp]
  · intro hp hcm
    unfold getStateSyncProofOp
    rw [hp, hcm]
  · intro cm hp hcm hlen hex
    obtain ⟨st', hok, hev, hvo, hcs, hmem, hother⟩ :=
      buildProofsStore_ok s.state cm.message hlen
    obtain ⟨e, he, hid⟩ := hex
    obtain ⟨pr, hget, hpre⟩ := hmem e he
    refine ⟨pr, st', ?_, ?_, ?_⟩
    · unfold getStateSyncProofOp
      simp only [hp, hcm, hok]
      rw [← hid, hget]
    · rw [hpre, hid]
    · rw [← hid]
      exact hget

/-- Witness for C7 at the concrete recovery state: the proof for event
`1` is rebuilt from the stored covering commitment and returned. -/
theorem getStateSyncProof_spec_witness :
    ((getStateSyncProofOp sExC7 1).2.2 = none) ∧
    ((getStateSyncProofOp sExC7 1).1).isSome = true := by
  obtain ⟨p, st', heq, hid, hre⟩ :=
    (getStateSyncProof_spec sExC7 1).2.2 ⟨⟨99, 0, 1⟩, ⟨0, 0⟩, []⟩ rfl rfl
      (by decide) ⟨⟨1, 7, 8, []⟩, by decide, rfl⟩
  rw [heq]
  exact ⟨rfl, rfl⟩

/-! ## C8 — the pending-list invariant -/

theorem headId_of_dense (st : Store) (a b : Nat) (hD : DenseEvents st)
    (hne : eventsInRange st a b ≠ []) : headId (eventsInRange st a b) = a := by
  have hred : eventsInRange st a b =
      (List.range' a (b + 1 - a)).filterMap
        (fun i => st.events.find? (fun e => e.id = i)) := rfl
  cases hn : b + 1 - a with
  | zero =>
    exfalso
    apply hne
    rw [hred, hn]
    rfl
  | succ m =>
    cases hfa : st.events.find? (fun e => e.id = a) with
    | some e =>
      have hcons : eventsInRange st a b =
          e :: (List.range' (a + 1) m).filterMap
            (fun i => st.events.find? (fun e => e.id = i)) := by
        rw [hred, hn, List.range'_succ]
        simp only [List.filterMap_cons, hfa]
      rw [hcons]
      have he : e.id = a := find?_id_eq st a e hfa
      simp [headId, he]
    | none =>
      exfalso
      have htail : eventsInRange st a b =
          (List.range' (a + 1) m).filterMap
            (fun i => st.events.find? (fun e => e.id = i)) := by
        rw [hred, hn, List.range'_succ]
        simp only [List.filterMap_cons, hfa]
      obtain ⟨x, hx⟩ := List.exists_mem_of_ne_nil _ (htail ▸ hne)
      rw [List.mem_filterMap] at hx
      obtain ⟨i, hi, hfi⟩ := hx
      have hxi : x.id = i := find?_id_eq st i x hfi
      have hxmem : x ∈ st.events := List.mem_of_find?_eq_some hfi
      rw [List.mem_range'] at hi
      obtain ⟨k, hk, hik⟩ := hi
      have hagt : a < x.id := by omega
      obtain ⟨e', he', hid⟩ := hD x hxmem a hagt
      have hsome : (st.events.find? (fun e => e.id = a)).isSome :=
        List.find?_isSome.2 ⟨e', he', by simp [hid]⟩
      rw [hfa] at hsome
      cases hsome

theorem insertStateSyncEvent_dense (st : Store) (ev : StateSyncEvent)
    (hD : DenseEvents st)
    (hev : ∀ j < ev.id, ∃ e' ∈ st.events, e'.id = j) :
    DenseEvents (insertStateSyncEvent st ev) := by
  unfold insertStateSyncEvent
  by_cases h : st.events.any (fun e => decide (e.id = ev.id))
  · rw [if_pos h]
    exact hD
  · rw [if_neg h]
    intro e he j hj
    rcases List.mem_append.1 he with h' | h'
    · obtain ⟨e', he', hid⟩ := hD e h' j hj
      exact ⟨e', List.mem_append_left _ he', hid⟩
    · rw [List.mem_singleton] at h'
      subst h'
      obtain ⟨e', he', hid⟩ := hev j hj
      exact ⟨e', List.mem_append_left _ he', hid⟩

theorem buildCommitment_preserves_inv (s : MgrState) (hD : DenseEvents s.state)
    (hI : PendingInv s) : PendingInv ((buildCommitment s).1) := by
  rw [buildCommitment_eq]
  by_cases h1 : (scanWindow s).length < minCommitmentSize
  · rw [if_pos h1]
    exact hI
  · rw [if_neg h1]
    by_cases h2 : alreadyCovered s.pendingCommitments (scanWindow s)
    · rw [if_pos h2]
      exact hI
    · rw [if_neg h2]
      intro c hc
      have hc' : c ∈ s.pendingCommitments ++ [NewCommitment s.epoch (scanWindow s)] := hc
      rcases List.mem_append.1 hc' with h | h
      · exact hI c h
      · rw [List.mem_singleton] at h
        subst h
        refine ⟨rfl, ?_⟩
        show headId (scanWindow s) = s.nextCommittedIndex
        have hne : eventsInRange s.state s.nextCommittedIndex
            (s.nextCommittedIndex + s.config.maxCommitmentSize - 1) ≠ [] := by
          intro hnil
          apply h1
          show (eventsInRange s.state s.nextCommittedIndex
            (s.nextCommittedIndex + s.config.maxCommitmentSize - 1)).length <
            minCommitmentSize
          rw [hnil]
          simp [minCommitmentSize]
        exact headId_of_dense s.state s.nextCommittedIndex
          (s.nextCommittedIndex + s.config.maxCommitmentSize - 1) hD hne

/-- C8: after every operation the pending commitments all carry the
current epoch number and share the same `fromId`, equal to the current
`nextCommittedIndex` — `PostEpoch` and `PostBlock` preserve the
invariant outright, and the `AddLog`-triggered build preserves it
provided the delivered event extends the dense stored prefix
(`Commitment()` does not modify the state at all, by its type). -/
theorem pending_invariant (s : MgrState) (hD : DenseEvents s.state)
    (hI : PendingInv s) :
    (∀ req, PendingInv ((postEpoch s req).1)) ∧
    (∀ txs, PendingInv ((postBlock s txs).1)) ∧
    (∀ log, (∀ ev, decodeStateSyncEventLog log = some ev →
        ∀ j < ev.id, ∃ e' ∈ s.state.events, e'.id = j) →
      PendingInv (addLog s log)) := by
  refine ⟨?_, ?_, ?_⟩
  · intro req
    unfold postEpoch
    cases hss : req.systemStateNextCommittedIndex with
    | error e =>
      intro c hc
      exact absurd hc (List.not_mem_nil c)
    | ok idx =>
      exact buildCommitment_preserves_inv
        { s with
            pendingCommitments := []
            validatorSet := some req.validatorSet
            epoch := req.newEpochID
            nextCommittedIndex := idx }
        hD (fun c hc => absurd hc (List.not_mem_nil c))
  · intro txs
    cases htx : getCommitmentMessageSignedTx txs with
    | none =>
      have hpb : postBlock s txs = (s, none) := by
        unfold postBlock
        rw [htx]
      rw [hpb]
      exact hI
    | some cm =>
      have hpb : postBlock s txs =
          (match buildProofsStore (insertCommitmentMessage s.state cm)
              cm.message with
           | .error e =>
             ({ s with state := insertCommitmentMessage s.state cm }, some e)
           | .ok st2 =>
             ({ s with
                 state := st2
                 nextCommittedIndex := cm.message.toIndex + 1
                 pendingCommitments := [] }, none)) := by
        unfold postBlock
        rw [htx]
      cases hbp : buildProofsStore (insertCommitmentMessage s.state cm)
          cm.message with
      | error e =>
        rw [hpb, hbp]
        intro c hc
        exact hI c hc
      | ok st2 =>
        rw [hpb, hbp]
        intro c hc
        exact absurd hc (List.not_mem_nil c)
  · intro log hlog
    cases log with
    | other n => exact hI
    | stateSync i sd r d =>
      show PendingInv ((buildCommitment
        { s with state := insertStateSyncEvent s.state ⟨i, sd, r, d⟩ }).1)
      apply buildCommitment_preserves_inv
      · exact insertStateSyncEvent_dense s.state ⟨i, sd, r, d⟩ hD
          (hlog ⟨i, sd, r, d⟩ rfl)
      · intro c hc
        exact hI c hc

/-- Witness for C8 at the concrete state (two dense events, empty
pending list): `PostBlock` with no commitment transaction preserves the
invariant. -/
theorem pending_invariant_witness :
    PendingInv ((postBlock sExC8 [.otherTx 3]).1) :=
  (pending_invariant sExC8 (by unfold DenseEvents; decide)
    (by unfold PendingInv; decide)).2.1 [.otherTx 3]

end PolybftStateSync
